import Mathlib

/-!
Verification of the logic core of the BLS labor-market dashboard
(`src/BLS_app.py`): series catalog annotation, filtering by selected
display names and year range, pairwise series merge, grouped sums, and
summary statistics, together with the CSV export of the filtered view.

Observations are embedded as records; a pandas DataFrame column operation
becomes a list operation on records. Numeric `value`s are embedded as
rationals; dates are embedded as opaque strings (only equality on dates is
ever used by the program: the merge joins on `date`).
-/

namespace BLS

/-- One row of the raw dataset `BLS_data.csv`, as loaded by `load_data`
(columns `series_id`, `date`, `year`, `value`). -/
structure Obs where
  series_id : String
  date : String
  year : Int
  value : ℚ
deriving DecidableEq, Repr

/-- A row after the script adds the `series_name` column (lines 31-33). -/
structure Row extends Obs where
  series_name : String
deriving DecidableEq, Repr

/-- The fixed mapping from series IDs to human-readable names
(`series_names`, lines 14-21), in source order. -/
def series_names : List (String × String) :=
  [("LNS12000000", "Civilian Employment"),
   ("LNS13000000", "Civilian Unemployment"),
   ("LNS14000000", "Unemployment Rate"),
   ("CES0000000001", "Total Nonfarm Employment"),
   ("CES0500000002", "Average Weekly Hours of All Employees"),
   ("CES0500000003", "Average Hourly Earnings of All Employees")]

/-- Catalog lookup: `series_names.get(i)` — `some name` when the id is in
the catalog, `none` otherwise (the `NaN` that `map` produces in line 32). -/
def catalogName (i : String) : Option String :=
  series_names.lookup i

/-- `data['series_id'].map(series_names)` followed by
`.fillna('Unknown Series')` (lines 32-33), applied to a single id. -/
def displayName (i : String) : String :=
  (catalogName i).getD "Unknown Series"

/-- Adding the `series_name` column to the whole dataset (lines 31-33). -/
def annotate (d : List Obs) : List Row :=
  d.map (fun o => { o with series_name := displayName o.series_id })

/-- `selected_series_ids` (lines 74-77): the ids whose catalog display
name is among the selected names. -/
def idsOf (S : List String) : List String :=
  series_names.filterMap (fun p => if p.2 ∈ S then some p.1 else none)

/-- The row predicate of lines 80-83: `series_id` among the selected ids
and `year` between the bounds, inclusive on both ends (`Series.between`). -/
def rowPass (S : List String) (lo hi : Int) (r : Row) : Bool :=
  (idsOf S).contains r.series_id && (decide (lo ≤ r.year) && decide (r.year ≤ hi))

/-- `filtered_data` (lines 80-83), as a function of the annotated dataset,
the selected display names and the inclusive year range. -/
def filterData (d : List Row) (S : List String) (lo hi : Int) : List Row :=
  d.filter (rowPass S lo hi)

/-- `data[data['series_id'] == sid]`: the single-series slice used at
lines 121, 146, 194-195 and 275-276. -/
def seriesSlice (sid : String) (d : List Row) : List Row :=
  d.filter (fun r => r.series_id == sid)

/-- One row of the wide comparison table `merged_data` (lines 196-200). -/
structure CompRow where
  date : String
  avg_weekly_hours : ℚ
  avg_hourly_earnings : ℚ
deriving DecidableEq, Repr

/-- `pd.merge(A[['date','value']], B[['date','value']], on='date')`:
an inner join on `date`. For each left row, every matching right row
produces one output row (pandas key-duplicate semantics), in left-frame
order. -/
def innerJoinByDate (A B : List Row) : List CompRow :=
  A.flatMap (fun a =>
    (B.filter (fun b => b.date == a.date)).map
      (fun b => { date := a.date, avg_weekly_hours := a.value,
                  avg_hourly_earnings := b.value }))

/-- `merged_data` (lines 194-200) as a function of the two series ids and
the dataset the slices are taken from. -/
def pairwiseSeriesMerge (ida idb : String) (d : List Row) : List CompRow :=
  innerJoinByDate (seriesSlice ida d) (seriesSlice idb d)

/-- The year-range slice of one series used by the pie chart
(lines 275-276): `data[(series_id == sid) & year.between(lo, hi)]`. -/
def yearSlice (sid : String) (lo hi : Int) (d : List Row) : List Row :=
  d.filter (fun r => r.series_id == sid && (decide (lo ≤ r.year) && decide (r.year ≤ hi)))

/-- `employment_total` / `unemployment_total` (lines 275-280): the per-series
sums of `value` over the selected year range. An empty pandas selection sums
to `0`. -/
def sumByCategory (ida idb : String) (d : List Row) (lo hi : Int) : ℚ × ℚ :=
  (((yearSlice ida lo hi d).map (·.value)).sum,
   ((yearSlice idb lo hi d).map (·.value)).sum)

/-- One row of the `describe()` output (line 322) for one group.
`std` carries the ddof-1 sample *variance* (the square of the standard
deviation pandas prints — the square root of a rational is irrational, and
no claim depends on the magnitude of `std`); it is `none` exactly when
pandas reports `NaN`, i.e. for groups with fewer than two rows. -/
structure GroupStats where
  count : Nat
  mean : ℚ
  std : Option ℚ
  min : ℚ
  p25 : ℚ
  p50 : ℚ
  p75 : ℚ
  max : ℚ
deriving DecidableEq, Repr

/-- Strict lexicographic order on character lists by Unicode code point:
the string order Python/pandas uses for sorting group keys. -/
def charsLt : List Char → List Char → Bool
  | [], [] => false
  | [], _ :: _ => true
  | _ :: _, [] => false
  | a :: as, b :: bs =>
    if a.toNat < b.toNat then true
    else if b.toNat < a.toNat then false
    else charsLt as bs

/-- Lexicographic `≤` on strings by code point. -/
def strLe (a b : String) : Bool :=
  !(charsLt b.data a.data)

/-- Insert into an already `le`-ascending list, keeping it ascending. -/
def insertLe {α : Type} (le : α → α → Bool) (x : α) : List α → List α
  | [] => [x]
  | y :: ys => if le x y then x :: y :: ys else y :: insertLe le x ys

/-- Ascending insertion sort by the boolean order `le` (pandas sorts the
values before taking quantiles, and sorts group keys in `groupby`). -/
def sortLe {α : Type} (le : α → α → Bool) (xs : List α) : List α :=
  xs.foldr (insertLe le) []

/-- Ascending sort of the rational values, used by the quantile logic. -/
def sortQ (xs : List ℚ) : List ℚ :=
  sortLe (fun a b => decide (a ≤ b)) xs

/-- The linear-interpolation quantile pandas `describe` uses: position
`q * (n - 1)` in the ascending values, interpolating between the two
neighbouring order statistics. -/
def quantile (sorted : List ℚ) (q : ℚ) : ℚ :=
  let n : ℚ := sorted.length
  let h : ℚ := q * (n - 1)
  let i : Nat := h.floor.toNat
  let lo : ℚ := sorted.getD i 0
  lo + (h - h.floor) * (sorted.getD (i + 1) lo - lo)

/-- `Series.describe()` on one group's `value` column: count, mean, std
(see `GroupStats.std`), min, the three quartiles, max. -/
def describeQ (xs : List ℚ) : GroupStats :=
  let n := xs.length
  let s := sortQ xs
  let μ := xs.sum / n
  { count := n
    mean := μ
    std := if 2 ≤ n then some (((xs.map (fun x => (x - μ) ^ 2)).sum) / (n - 1)) else none
    min := s.headD 0
    p25 := quantile s (1 / 4)
    p50 := quantile s (1 / 2)
    p75 := quantile s (3 / 4)
    max := s.getLastD 0 }

/-- The distinct group keys (each name kept once; order is irrelevant
because the keys are sorted afterwards). -/
def dedupKeys : List String → List String
  | [] => []
  | x :: xs => if x ∈ xs then dedupKeys xs else x :: dedupKeys xs

/-- `summary = filtered_data.groupby('series_name')['value'].describe()`
(line 322): one `GroupStats` per distinct `series_name` present in the
view, keys in ascending order (pandas `groupby` sorts group keys); a name
with no rows forms no group. -/
def summaryStatistics (fv : List Row) : List (String × GroupStats) :=
  let keys := sortLe strLe (dedupKeys (fv.map (·.series_name)))
  keys.map (fun k =>
    (k, describeQ ((fv.filter (fun r => r.series_name == k)).map (·.value))))

/-! ### CSV export of the filtered view

`filtered_data.to_csv(index=False)` (line 332) writes a header line and one
line per row, fields joined by commas, every line terminated by a newline.
Numeric cells are rendered exactly (the claim about re-parsing is stated
modulo the formatting of numeric values, so the embedding renders a rational
canonically as `num/den` rather than as a decimal float). -/

/-- Digit value of a decimal digit character. -/
def charToDigit (c : Char) : Nat :=
  c.toNat - 48

/-- Decimal rendering of a natural number (most significant digit first). -/
def renderNat (n : Nat) : List Char :=
  if n = 0 then ['0'] else ((Nat.digits 10 n).map Nat.digitChar).reverse

/-- Reading a decimal natural number back. -/
def parseNat (l : List Char) : Nat :=
  Nat.ofDigits 10 ((l.map charToDigit).reverse)

/-- Decimal rendering of an integer. -/
def renderInt (i : Int) : List Char :=
  if i < 0 then '-' :: renderNat (-i).toNat else renderNat i.toNat

/-- Reading an integer back. -/
def parseInt (l : List Char) : Int :=
  if l.head? = some '-' then -(parseNat l.tail : Int) else (parseNat l : Int)

/-- Canonical exact rendering of a rational value cell. -/
def renderQ (q : ℚ) : List Char :=
  renderInt q.num ++ '/' :: renderNat q.den

/-- Join character lists with a single separator character between
consecutive fields. -/
def joinSep (sep : Char) : List (List Char) → List Char
  | [] => []
  | [l] => l
  | l :: ls => l ++ sep :: joinSep sep ls

/-- Split a character list at every occurrence of `sep`. -/
def splitC (sep : Char) : List Char → List (List Char)
  | [] => [[]]
  | c :: cs =>
    if c = sep then [] :: splitC sep cs
    else
      match splitC sep cs with
      | [] => [[c]]
      | r :: rs => (c :: r) :: rs

/-- Reading a rational value cell back. -/
def parseQ (l : List Char) : Option ℚ :=
  match splitC '/' l with
  | [a, b] => some ((parseInt a : ℚ) / (parseNat b : ℚ))
  | _ => none

/-- The five cells of one exported row, in the column order of
`filtered_data`: `series_id, date, year, value, series_name`. -/
def cellsOfRow (r : Row) : List (List Char) :=
  [r.series_id.data, r.date.data, renderInt r.year, renderQ r.value,
   r.series_name.data]

/-- One exported line: the cells joined by commas. -/
def rowChars (r : Row) : List Char :=
  joinSep ',' (cellsOfRow r)

/-- The header line of the export. -/
def headerChars : List Char :=
  ("series_id,date,year,value,series_name" : String).data

/-- `filtered_data.to_csv(index=False)`: header then one line per row, each
line terminated by a newline. -/
def toCsv (v : List Row) : List Char :=
  (headerChars :: v.map rowChars).flatMap (· ++ ['\n'])

/-- Modelled from the spec: re-parsing the delimited export (the spec's
round-trip property; the reading direction is the loader's `pd.read_csv`,
which lives in the pandas library, not in this repository). Reads one data
line back into a row. -/
def parseRowChars (l : List Char) : Option Row :=
  match splitC ',' l with
  | [sid, dt, yr, vl, nm] =>
    (parseQ vl).map (fun q =>
      { series_id := String.mk sid, date := String.mk dt, year := parseInt yr,
        value := q, series_name := String.mk nm })
  | _ => none

/-- Reads a list of data lines back, failing if any line fails. -/
def parseRows : List (List Char) → Option (List Row)
  | [] => some []
  | l :: ls =>
    match parseRowChars l, parseRows ls with
    | some r, some rs => some (r :: rs)
    | _, _ => none

/-- Drops the empty segment a terminating newline leaves after splitting. -/
def dropFinalEmpty (ls : List (List Char)) : List (List Char) :=
  if ls.getLast? = some [] then ls.dropLast else ls

/-- Modelled from the spec: re-parsing the whole delimited export — split
into lines (tolerating the terminating newline), check the header, read
every data line. -/
def parseCsv (s : List Char) : Option (List Row) :=
  match dropFinalEmpty (splitC '\n' s) with
  | [] => none
  | h :: rows => if h = headerChars then parseRows rows else none

/-- A character list free of the two delimiter characters of the format. -/
def sepFree (l : List Char) : Prop :=
  ',' ∉ l ∧ '\n' ∉ l

instance (l : List Char) : Decidable (sepFree l) := by
  unfold sepFree; infer_instance

/-! ### The script's outputs as one pipeline

The script computes every view from the memoized dataset `data`, the
multiselect value `selected_series_names` and the slider value
`selected_years`. `runApp` records which dataset each view is actually
computed from. -/

/-- The outputs the script renders, as functions of the annotated dataset,
the selected display names and the year range. -/
structure AppOutputs where
  /-- `filtered_data` (lines 80-83). -/
  filtered : List Row
  /-- `unemployment_data` (line 121): a slice of `filtered_data`. -/
  unemployment : List Row
  /-- `nonfarm_data` (line 146): a slice of `filtered_data`. -/
  nonfarm : List Row
  /-- `merged_data` (lines 194-200): built from `data`, the full dataset. -/
  comparison : List CompRow
  /-- `employment_total, unemployment_total` (lines 275-280): built from
  `data` restricted by the year range only. -/
  pieTotals : ℚ × ℚ
  /-- `summary` (line 322): built from `filtered_data`. -/
  summary : List (String × GroupStats)
  /-- The download payload (line 332): `filtered_data.to_csv(index=False)`. -/
  csvExport : List Char

/-- One full rerun of the script after a user interaction, starting from the
annotated dataset `d` (`data` after lines 31-33), the selected display names
`S` and the year range `(lo, hi)`. -/
def runApp (d : List Row) (S : List String) (lo hi : Int) : AppOutputs :=
  let fd := filterData d S lo hi
  { filtered := fd
    unemployment := seriesSlice "LNS14000000" fd
    nonfarm := seriesSlice "CES0000000001" fd
    comparison := pairwiseSeriesMerge "CES0500000002" "CES0500000003" d
    pieTotals := sumByCategory "LNS12000000" "LNS13000000" d lo hi
    summary := summaryStatistics fd
    csvExport := toCsv fd }

/-- `default_options` (lines 43-48): the six catalog display names the
sidebar selects by default. -/
def default_options : List String :=
  ["Civilian Employment",
   "Civilian Unemployment",
   "Unemployment Rate",
   "Total Nonfarm Employment",
   "Average Weekly Hours of All Employees",
   "Average Hourly Earnings of All Employees"]

/-- A sample raw dataset whose two comparison series live entirely in the
year 2000, outside the year range `(2019, 2020)` used against it. -/
def sampleOld : List Obs :=
  [{ series_id := "CES0500000002", date := "2000-01-15", year := 2000,
     value := 34 },
   { series_id := "CES0500000003", date := "2000-01-15", year := 2000,
     value := 25 }]

/-- A sample annotated dataset in which the earnings series carries two
rows with the same date. -/
def sampleDupDates : List Row :=
  [{ series_id := "CES0500000002", date := "2020-01-15", year := 2020,
     value := 34, series_name := "Average Weekly Hours of All Employees" },
   { series_id := "CES0500000003", date := "2020-01-15", year := 2020,
     value := 29, series_name := "Average Hourly Earnings of All Employees" },
   { series_id := "CES0500000003", date := "2020-01-15", year := 2020,
     value := 30, series_name := "Average Hourly Earnings of All Employees" }]

/-- A sample annotated dataset with one row per comparison series, dates
unique within each series. -/
def sampleUniqueDates : List Row :=
  [{ series_id := "CES0500000002", date := "2020-01-15", year := 2020,
     value := 34, series_name := "Average Weekly Hours of All Employees" },
   { series_id := "CES0500000003", date := "2020-01-15", year := 2020,
     value := 29, series_name := "Average Hourly Earnings of All Employees" }]

/-! ### Helper lemmas -/

/-- The inverse-lookup list only produces catalog keys. -/
lemma mem_keys_of_mem_selIds {L : List (String × String)} {S : List String}
    {i : String}
    (h : i ∈ L.filterMap (fun p => if p.2 ∈ S then some p.1 else none)) :
    i ∈ L.map Prod.fst := by
  rw [List.mem_filterMap] at h
  obtain ⟨p, hp, hif⟩ := h
  refine List.mem_map.mpr ⟨p, hp, ?_⟩
  by_cases hs : p.2 ∈ S
  · simpa [hs] using hif
  · simp [hs] at hif

/-- Over an association list with distinct keys, membership in the
inverse-lookup list is equivalent to the key's looked-up name being among
the selected names. -/
lemma mem_selIds_iff {L : List (String × String)} {S : List String}
    {i : String} (hnd : (L.map Prod.fst).Nodup) :
    i ∈ L.filterMap (fun p => if p.2 ∈ S then some p.1 else none) ↔
      ∃ n, L.lookup i = some n ∧ n ∈ S := by
  induction L with
  | nil => simp
  | cons p L ih =>
    obtain ⟨k, v⟩ := p
    simp only [List.map_cons, List.nodup_cons] at hnd
    obtain ⟨hk, hnd'⟩ := hnd
    rw [List.filterMap_cons]
    by_cases hik : i = k
    · subst hik
      have hbeq : (i == i) = true := beq_self_eq_true i
      by_cases hv : v ∈ S
      · simp [hv, List.lookup_cons, hbeq]
      · simp only [if_neg hv]
        constructor
        · intro h
          exact absurd (mem_keys_of_mem_selIds h) hk
        · rintro ⟨n, hn, hnS⟩
          rw [List.lookup_cons] at hn
          simp [hbeq] at hn
          exact absurd (hn ▸ hnS) hv
    · have hbeq : (i == k) = false := beq_eq_false_iff_ne.mpr hik
      have hlk : List.lookup i ((k, v) :: L) = List.lookup i L := by
        rw [List.lookup_cons, hbeq]
      rw [hlk]
      by_cases hv : v ∈ S
      · simpa [hv, hik] using ih hnd'
      · simpa [hv] using ih hnd'

/-- The catalog has pairwise distinct keys. -/
lemma series_names_keys_nodup : (series_names.map Prod.fst).Nodup := by
  decide

/-- A selected id is exactly an id whose catalog display name is selected. -/
lemma mem_idsOf {i : String} {S : List String} :
    i ∈ idsOf S ↔ ∃ n, catalogName i = some n ∧ n ∈ S :=
  mem_selIds_iff series_names_keys_nodup

/-- Unfolding of the row predicate of `filtered_data` into propositions. -/
lemma rowPass_iff {S : List String} {lo hi : Int} {r : Row} :
    rowPass S lo hi r = true ↔
      (∃ n, catalogName r.series_id = some n ∧ n ∈ S) ∧
        lo ≤ r.year ∧ r.year ≤ hi := by
  simp [rowPass, mem_idsOf]

/-- Membership in `filtered_data`. -/
lemma mem_filterData {d : List Row} {S : List String} {lo hi : Int} {r : Row} :
    r ∈ filterData d S lo hi ↔
      r ∈ d ∧ (∃ n, catalogName r.series_id = some n ∧ n ∈ S) ∧
        lo ≤ r.year ∧ r.year ≤ hi := by
  rw [filterData, List.mem_filter, rowPass_iff]

/-! ### Claims -/

/-- C1. For every dataset `D`, selection `S` of display names and year range
`(lo, hi)`: a row is in `filter(D, S, R)` exactly when it is a row of `D`
whose `series_id` has a catalog display name that is in `S` and whose `year`
satisfies `lo ≤ year ≤ hi` — the filtered view is precisely the maximal such
subset of `D`. -/
theorem filterData_exact (d : List Row) (S : List String) (lo hi : Int) :
    (∀ r ∈ filterData d S lo hi,
        (∃ n, catalogName r.series_id = some n ∧ n ∈ S) ∧
          lo ≤ r.year ∧ r.year ≤ hi) ∧
      ∀ r ∈ d,
        (∃ n, catalogName r.series_id = some n ∧ n ∈ S) →
          lo ≤ r.year → r.year ≤ hi → r ∈ filterData d S lo hi := by
  constructor
  · intro r hr
    exact (mem_filterData.mp hr).2
  · intro r hr hname hlo hhi
    exact mem_filterData.mpr ⟨hr, hname, hlo, hhi⟩

/-- Witness for C1 on the spec's own scenario: the two Unemployment Rate
rows of 2019 and 2020 pass the filter for selection
`{"Unemployment Rate"}` and range `(2019, 2020)`. -/
theorem filterData_exact_witness :
    ({ series_id := "LNS14000000", date := "2019-04-01", year := 2019,
       value := 36 / 10, series_name := "Unemployment Rate" } : Row) ∈
      filterData
        [{ series_id := "LNS14000000", date := "2019-04-01", year := 2019,
           value := 36 / 10, series_name := "Unemployment Rate" },
         { series_id := "LNS14000000", date := "2020-04-01", year := 2020,
           value := 806 / 100, series_name := "Unemployment Rate" }]
        ["Unemployment Rate"] 2019 2020 := by
  refine (filterData_exact _ ["Unemployment Rate"] 2019 2020).2 _
    (List.mem_cons_self _ _) ⟨"Unemployment Rate", ?_, ?_⟩ (by decide) (by decide)
  · rfl
  · exact List.mem_cons_self _ _

/-- C8. Filtering is idempotent: applying the filter a second time with the
same selection and year range changes nothing. -/
theorem filterData_idempotent (d : List Row) (S : List String) (lo hi : Int) :
    filterData (filterData d S lo hi) S lo hi = filterData d S lo hi := by
  unfold filterData
  rw [List.filter_filter]
  congr 1
  funext r
  exact Bool.and_self (rowPass S lo hi r)

/-- C4. The display-name lookup is a total function, and every id that is
not in the catalog is mapped to the sentinel `"Unknown Series"`. -/
theorem displayName_unknown (i : String) (h : catalogName i = none) :
    displayName i = "Unknown Series" := by
  rw [displayName, h]
  rfl

/-- Witness for C4 at the concrete unmapped id `"LNS99999999"`. -/
theorem displayName_unknown_witness :
    displayName "LNS99999999" = "Unknown Series" :=
  displayName_unknown "LNS99999999" (by decide)

/-- C6. An empty selection of display names yields an empty filtered view —
not an error — and the summary-statistics table over that view has zero
groups. -/
theorem emptySelection_empty (d : List Row) (lo hi : Int) :
    filterData d [] lo hi = [] ∧
      summaryStatistics (filterData d [] lo hi) = [] := by
  have hids : idsOf [] = [] := rfl
  have hf : filterData d [] lo hi = [] := by
    unfold filterData
    rw [List.filter_eq_nil_iff]
    intro r _
    simp [rowPass, hids]
  exact ⟨hf, by rw [hf]; rfl⟩

/-- C10. The sentinel name `"Unknown Series"` is not the display name of any
catalog entry, so the inverse lookup sends the selection
`{"Unknown Series"}` to the empty id set, and filtering any dataset — even
one whose rows carry unmapped ids annotated with the sentinel — with that
selection yields an empty result for every year range. -/
theorem unknownSeries_unreachable (d : List Obs) (lo hi : Int) :
    idsOf ["Unknown Series"] = [] ∧
      filterData (annotate d) ["Unknown Series"] lo hi = [] := by
  have hids : idsOf ["Unknown Series"] = [] := rfl
  refine ⟨hids, ?_⟩
  unfold filterData
  rw [List.filter_eq_nil_iff]
  intro r _
  simp [rowPass, hids]

/-- C5. The pie-chart totals are the per-series sums of `value` over the
year-range slices, and an empty slice contributes a total of `0` (pandas
sums an empty selection to zero; in this embedding the sum is a total
function into `ℚ`, so no error and no `NaN` value can arise). -/
theorem sumByCategory_sums (ida idb : String) (d : List Row) (lo hi : Int) :
    (sumByCategory ida idb d lo hi).1 =
        ((yearSlice ida lo hi d).map (·.value)).sum ∧
      (sumByCategory ida idb d lo hi).2 =
        ((yearSlice idb lo hi d).map (·.value)).sum ∧
      (yearSlice ida lo hi d = [] → (sumByCategory ida idb d lo hi).1 = 0) ∧
      (yearSlice idb lo hi d = [] → (sumByCategory ida idb d lo hi).2 = 0) := by
  refine ⟨rfl, rfl, ?_, ?_⟩
  · intro h
    simp [sumByCategory, h]
  · intro h
    simp [sumByCategory, h]

/-- Witness for C5: on a dataset whose only rows lie outside the year
range, both slices are empty and both totals are `0`. -/
theorem sumByCategory_sums_witness :
    yearSlice "LNS12000000" 2019 2020
        [{ series_id := "LNS12000000", date := "2000-01-01", year := 2000,
           value := 7, series_name := "Civilian Employment" }] = [] ∧
      (sumByCategory "LNS12000000" "LNS13000000"
          [{ series_id := "LNS12000000", date := "2000-01-01", year := 2000,
             value := 7, series_name := "Civilian Employment" }]
          2019 2020).1 = 0 := by
  have h : yearSlice "LNS12000000" 2019 2020
      [{ series_id := "LNS12000000", date := "2000-01-01", year := 2000,
         value := 7, series_name := "Civilian Employment" }] = [] := by decide
  exact ⟨h,
    (sumByCategory_sums "LNS12000000" "LNS13000000" _ 2019 2020).2.2.1 h⟩

/-- Membership in an insertion step. -/
lemma mem_insertLe {α : Type} {le : α → α → Bool} {x a : α} {l : List α} :
    a ∈ insertLe le x l ↔ a = x ∨ a ∈ l := by
  induction l with
  | nil => simp [insertLe]
  | cons y ys ih =>
    rw [insertLe]
    by_cases h : le x y = true
    · simp [h]
    · simp only [if_neg h, List.mem_cons, ih]
      tauto

/-- Sorting does not change membership. -/
lemma mem_sortLe {α : Type} {le : α → α → Bool} {a : α} {l : List α} :
    a ∈ sortLe le l ↔ a ∈ l := by
  induction l with
  | nil => simp [sortLe]
  | cons y ys ih =>
    rw [sortLe, List.foldr_cons, mem_insertLe]
    rw [sortLe] at ih
    rw [ih, List.mem_cons]

/-- Deduplication does not change membership. -/
lemma mem_dedupKeys {a : String} {l : List String} :
    a ∈ dedupKeys l ↔ a ∈ l := by
  induction l with
  | nil => simp [dedupKeys]
  | cons x xs ih =>
    rw [dedupKeys]
    by_cases h : x ∈ xs
    · rw [if_pos h, ih, List.mem_cons]
      constructor
      · exact Or.inr
      · rintro (rfl | hm)
        · exact h
        · exact hm
    · rw [if_neg h]
      simp [ih]

/-- `Rat.floor` of zero, used to evaluate quantiles of singleton groups. -/
lemma ratFloor_zero : Rat.floor 0 = 0 := rfl

/-- C7. The summary-statistics table groups the filtered view by display
name: every group is nonempty (a display name with zero rows forms no
group), every row of the view falls under some group, each group's entry is
the `describe()` of that group's values; and on a view containing exactly
one row with value `5` for group `"X"` the table has the single entry with
count `1`, mean `5`, all five order statistics `5`, and an undefined
(`none`, pandas `NaN`) standard deviation. -/
theorem summaryStatistics_groups (fv : List Row) :
    (∀ e ∈ summaryStatistics fv,
        1 ≤ e.2.count ∧
          e.2 = describeQ
            ((fv.filter (fun r => r.series_name == e.1)).map (·.value))) ∧
      (∀ r ∈ fv, ∃ e ∈ summaryStatistics fv, e.1 = r.series_name) ∧
      summaryStatistics
          [{ series_id := "Z0", date := "2020-01-01", year := 2020,
             value := 5, series_name := "X" }] =
        [("X", { count := 1, mean := 5, std := none, min := 5, p25 := 5,
                 p50 := 5, p75 := 5, max := 5 })] := by
  refine ⟨?_, ?_, ?_⟩
  · intro e he
    rw [summaryStatistics] at he
    simp only [List.mem_map] at he
    obtain ⟨k, hk, rfl⟩ := he
    rw [mem_sortLe, mem_dedupKeys, List.mem_map] at hk
    obtain ⟨r, hr, hname⟩ := hk
    have hmem : r ∈ fv.filter (fun x => x.series_name == k) :=
      List.mem_filter.mpr ⟨hr, by simp [hname]⟩
    have hpos : 0 < (fv.filter (fun x => x.series_name == k)).length :=
      List.length_pos.mpr (List.ne_nil_of_mem hmem)
    exact ⟨by simpa [describeQ] using hpos, rfl⟩
  · intro r hr
    rw [summaryStatistics]
    refine ⟨(r.series_name,
      describeQ ((fv.filter (fun x => x.series_name == r.series_name)).map
        (·.value))), ?_, rfl⟩
    simp only [List.mem_map]
    refine ⟨r.series_name, ?_, rfl⟩
    rw [mem_sortLe, mem_dedupKeys]
    exact List.mem_map_of_mem (·.series_name) hr
  · simp [summaryStatistics, dedupKeys, describeQ, sortQ, sortLe, insertLe,
      quantile, ratFloor_zero]

/-- Witness for C7 on the single-row view itself: its one group has a
positive count. -/
theorem summaryStatistics_groups_witness :
    1 ≤ (describeQ [(5 : ℚ)]).count := by
  have h := summaryStatistics_groups
      [{ series_id := "Z0", date := "2020-01-01", year := 2020,
         value := 5, series_name := "X" }]
  refine (h.1 ("X", describeQ [5]) ?_).1
  rw [summaryStatistics]
  simp [dedupKeys, sortLe, insertLe]

/-- When the dates in `l` are pairwise distinct, at most one row has a
given date. -/
lemma countP_date_le_one {l : List Row} (h : (l.map (·.date)).Nodup)
    (x : String) :
    l.countP (fun r => r.date == x) ≤ 1 := by
  induction l with
  | nil => simp
  | cons b l ih =>
    simp only [List.map_cons, List.nodup_cons] at h
    obtain ⟨hb, h'⟩ := h
    rw [List.countP_cons]
    by_cases hd : (b.date == x) = true
    · have hx : b.date = x := by simpa using hd
      have hcount : l.countP (fun r => r.date == x) = 0 := by
        rw [List.countP_eq_zero]
        intro r hr hrx
        have : r.date = x := by simpa using hrx
        exact hb (hx ▸ this ▸ List.mem_map_of_mem (·.date) hr)
      simp [hcount, hd]
    · have : (b.date == x) = false := Bool.eq_false_iff.mpr hd
      rw [this]
      simpa using ih h'

/-- The mirrored orientation of `countP_date_le_one`. -/
lemma countP_date_le_one' {l : List Row} (h : (l.map (·.date)).Nodup)
    (x : String) :
    l.countP (fun r => x == r.date) ≤ 1 := by
  have he : (fun r : Row => x == r.date) = fun r : Row => r.date == x := by
    funext r
    by_cases hr : x = r.date
    · simp [hr]
    · simp [hr, Ne.symm hr]
  rw [he]
  exact countP_date_le_one h x

/-- A count is the sum of the indicator values. -/
lemma countP_eq_sum_map {α : Type} (p : α → Bool) (l : List α) :
    l.countP p = (l.map (fun a => if p a then 1 else 0)).sum := by
  induction l with
  | nil => simp
  | cons a l ih =>
    rw [List.countP_cons, List.map_cons, List.sum_cons, ih]
    omega

/-- Sums of pointwise sums split. -/
lemma sum_map_add {α : Type} (f g : α → ℕ) (l : List α) :
    (l.map (fun x => f x + g x)).sum = (l.map f).sum + (l.map g).sum := by
  induction l with
  | nil => rfl
  | cons x l ih =>
    simp only [List.map_cons, List.sum_cons, ih]
    omega

/-- Double counting of matching pairs: summing over the left list the
number of right matches equals summing over the right list the number of
left matches. -/
lemma sum_countP_comm {α β : Type} (p : α → β → Bool) (A : List α)
    (B : List β) :
    (A.map (fun a => B.countP (p a))).sum =
      (B.map (fun b => A.countP (fun a => p a b))).sum := by
  induction A with
  | nil => simp
  | cons a A ih =>
    rw [List.map_cons, List.sum_cons, ih]
    simp only [List.countP_cons]
    rw [show (fun b => A.countP (fun a => p a b) + if p a b then 1 else 0) =
        fun b => (fun b => A.countP (fun a => p a b)) b +
          (fun b => if p a b then 1 else 0) b from rfl,
      sum_map_add, countP_eq_sum_map]
    omega

/-- A sum of values that are each at most one is at most the number of
values. -/
lemma sum_le_length {l : List ℕ} (h : ∀ x ∈ l, x ≤ 1) :
    l.sum ≤ l.length := by
  induction l with
  | nil => simp
  | cons x l ih =>
    rw [List.sum_cons, List.length_cons]
    have hx := h x (List.mem_cons_self x l)
    have := ih fun y hy => h y (List.mem_cons_of_mem x hy)
    omega

/-- The length of the inner join is the total number of matching pairs. -/
lemma innerJoin_length (A B : List Row) :
    (innerJoinByDate A B).length =
      (A.map (fun a => B.countP (fun b => b.date == a.date))).sum := by
  rw [innerJoinByDate, List.length_flatMap]
  refine congrArg List.sum (List.map_congr_left ?_)
  intro a _
  simp [List.countP_eq_length_filter]

/-- When the right slice has pairwise-distinct dates, the join has at most
one row per left row. -/
lemma innerJoin_length_le_left {A B : List Row}
    (hB : (B.map (·.date)).Nodup) :
    (innerJoinByDate A B).length ≤ A.length := by
  rw [innerJoin_length]
  calc (A.map (fun a => B.countP (fun b => b.date == a.date))).sum
      ≤ (A.map (fun a => B.countP (fun b => b.date == a.date))).length := by
        refine sum_le_length ?_
        intro x hx
        obtain ⟨a, _, rfl⟩ := List.mem_map.mp hx
        exact countP_date_le_one hB a.date
    _ = A.length := List.length_map _ _

/-- When the left slice has pairwise-distinct dates, the join has at most
one row per right row. -/
lemma innerJoin_length_le_right {A B : List Row}
    (hA : (A.map (·.date)).Nodup) :
    (innerJoinByDate A B).length ≤ B.length := by
  rw [innerJoin_length,
    sum_countP_comm (fun a b => b.date == a.date) A B]
  calc (B.map (fun b => A.countP (fun a => b.date == a.date))).sum
      ≤ (B.map (fun b => A.countP (fun a => b.date == a.date))).length := by
        refine sum_le_length ?_
        intro x hx
        obtain ⟨b, _, rfl⟩ := List.mem_map.mp hx
        exact countP_date_le_one' hA b.date
    _ = B.length := List.length_map _ _

/-- C3 counterexample. As stated over every dataset, the row-count bound
fails: when the earnings slice carries two rows with the same date, the
inner join produces two output rows from a single hours row, exceeding
`min(|sliceA|, |sliceB|) = 1`. -/
theorem pairwiseSeriesMerge_count_fails :
    ¬ ((pairwiseSeriesMerge "CES0500000002" "CES0500000003"
          sampleDupDates).length ≤
        min (seriesSlice "CES0500000002" sampleDupDates).length
          (seriesSlice "CES0500000003" sampleDupDates).length) := by
  decide

/-- C3 (amended). Every row of the pairwise merge has a date present in
both single-series slices (inner-join semantics: a date present in only
one series produces no row); and when dates are pairwise distinct within
each slice — as they are for calendar time series — the row count is at
most `min(|sliceA|, |sliceB|)`. -/
theorem pairwiseSeriesMerge_innerJoin (d : List Row) (ida idb : String) :
    (∀ c ∈ pairwiseSeriesMerge ida idb d,
        (∃ a ∈ seriesSlice ida d, a.date = c.date) ∧
          ∃ b ∈ seriesSlice idb d, b.date = c.date) ∧
      (((seriesSlice ida d).map (·.date)).Nodup →
        ((seriesSlice idb d).map (·.date)).Nodup →
        (pairwiseSeriesMerge ida idb d).length ≤
          min (seriesSlice ida d).length (seriesSlice idb d).length) := by
  constructor
  · intro c hc
    rw [pairwiseSeriesMerge, innerJoinByDate, List.mem_flatMap] at hc
    obtain ⟨a, ha, hcm⟩ := hc
    rw [List.mem_map] at hcm
    obtain ⟨b, hb, rfl⟩ := hcm
    rw [List.mem_filter] at hb
    refine ⟨⟨a, ha, rfl⟩, ⟨b, hb.1, ?_⟩⟩
    simpa using hb.2
  · intro hA hB
    exact le_min (innerJoin_length_le_left hB) (innerJoin_length_le_right hA)

/-- Witness for C3 on a dataset with unique dates per series: one hours row
and one earnings row sharing a date merge into at most
`min(1, 1) = 1` row. -/
theorem pairwiseSeriesMerge_innerJoin_witness :
    (pairwiseSeriesMerge "CES0500000002" "CES0500000003"
        sampleUniqueDates).length ≤
      min (seriesSlice "CES0500000002" sampleUniqueDates).length
        (seriesSlice "CES0500000003" sampleUniqueDates).length :=
  (pairwiseSeriesMerge_innerJoin sampleUniqueDates
      "CES0500000002" "CES0500000003").2 (by decide) (by decide)

/-- C2 counterexample. The weekly-hours vs hourly-earnings comparison table
is *not* built from the filtered rows: on a dataset whose two comparison
series lie entirely outside the selected year range, the filtered view is
empty, yet the rendered comparison table has a row. -/
theorem comparison_not_filtered :
    (runApp (annotate sampleOld) default_options 2019 2020).comparison ≠
      pairwiseSeriesMerge "CES0500000002" "CES0500000003"
        ((runApp (annotate sampleOld) default_options 2019 2020).filtered) := by
  decide

/-- C2 (amended). The filtered subset feeds the per-series charts, the
summary table and the CSV export; but the weekly-hours vs hourly-earnings
comparison table is built from the full dataset — it is independent of the
selection and year range — and the pie totals come from the full dataset
restricted by year range only. -/
theorem runApp_dataflow (d : List Row) (S S' : List String)
    (lo hi lo' hi' : Int) :
    (runApp d S lo hi).comparison =
        pairwiseSeriesMerge "CES0500000002" "CES0500000003" d ∧
      (runApp d S lo hi).comparison = (runApp d S' lo' hi').comparison ∧
      (runApp d S lo hi).unemployment =
        seriesSlice "LNS14000000" (filterData d S lo hi) ∧
      (runApp d S lo hi).nonfarm =
        seriesSlice "CES0000000001" (filterData d S lo hi) ∧
      (runApp d S lo hi).summary = summaryStatistics (filterData d S lo hi) ∧
      (runApp d S lo hi).csvExport = toCsv (filterData d S lo hi) ∧
      (runApp d S lo hi).pieTotals =
        sumByCategory "LNS12000000" "LNS13000000" d lo hi :=
  ⟨rfl, rfl, rfl, rfl, rfl, rfl, rfl⟩

/-- The ten decimal digit characters have code points 48-57. -/
lemma digitChar_bounds : ∀ d < 10,
    48 ≤ (Nat.digitChar d).toNat ∧ (Nat.digitChar d).toNat ≤ 57 := by
  decide

/-- Reading a digit character back gives the digit. -/
lemma charToDigit_digitChar : ∀ d < 10,
    charToDigit (Nat.digitChar d) = d := by
  decide

/-- Every character of a rendered natural number is a decimal digit. -/
lemma mem_renderNat_bounds {n : ℕ} {c : Char} (h : c ∈ renderNat n) :
    48 ≤ c.toNat ∧ c.toNat ≤ 57 := by
  rw [renderNat] at h
  by_cases hn : n = 0
  · rw [if_pos hn] at h
    rw [List.mem_singleton] at h
    subst h
    decide
  · rw [if_neg hn, List.mem_reverse, List.mem_map] at h
    obtain ⟨d, hd, rfl⟩ := h
    exact digitChar_bounds d (Nat.digits_lt_base (by norm_num) hd)

/-- A rendered natural number has at least one character. -/
lemma renderNat_ne_nil (n : ℕ) : renderNat n ≠ [] := by
  rw [renderNat]
  by_cases hn : n = 0
  · simp [hn]
  · simp [hn, Nat.digits_ne_nil_iff_ne_zero.mpr hn]

/-- Reading back a rendered natural number recovers it. -/
lemma parseNat_renderNat (n : ℕ) : parseNat (renderNat n) = n := by
  rw [renderNat]
  by_cases hn : n = 0
  · rw [if_pos hn, hn]
    decide
  · rw [if_neg hn, parseNat, List.map_reverse, List.reverse_reverse,
      List.map_map]
    have hcongr : (Nat.digits 10 n).map (charToDigit ∘ Nat.digitChar) =
        (Nat.digits 10 n).map id :=
      List.map_congr_left fun d hd =>
        charToDigit_digitChar d (Nat.digits_lt_base (by norm_num) hd)
    rw [hcongr, List.map_id]
    exact Nat.ofDigits_digits 10 n

/-- Every character of a rendered integer is a minus sign or a digit. -/
lemma mem_renderInt_bounds {i : ℤ} {c : Char} (h : c ∈ renderInt i) :
    c.toNat = 45 ∨ (48 ≤ c.toNat ∧ c.toNat ≤ 57) := by
  rw [renderInt] at h
  by_cases hi : i < 0
  · rw [if_pos hi, List.mem_cons] at h
    rcases h with rfl | h
    · exact Or.inl rfl
    · exact Or.inr (mem_renderNat_bounds h)
  · rw [if_neg hi] at h
    exact Or.inr (mem_renderNat_bounds h)

/-- Reading back a rendered integer recovers it. -/
lemma parseInt_renderInt (i : ℤ) : parseInt (renderInt i) = i := by
  rw [renderInt]
  by_cases hi : i < 0
  · rw [if_pos hi, parseInt]
    have hhead : ('-' :: renderNat (-i).toNat).head? = some '-' := rfl
    rw [if_pos hhead, List.tail_cons, parseNat_renderNat]
    have : ((-i).toNat : ℤ) = -i := Int.toNat_of_nonneg (by omega)
    omega
  · rw [if_neg hi, parseInt]
    have hne : renderNat i.toNat ≠ [] := renderNat_ne_nil i.toNat
    obtain ⟨c, cs, hcons⟩ := List.exists_cons_of_ne_nil hne
    have hc : c ∈ renderNat i.toNat := hcons ▸ List.mem_cons_self c cs
    have hcb := mem_renderNat_bounds hc
    have hcne : ¬ (renderNat i.toNat).head? = some '-' := by
      rw [hcons]
      intro hcontra
      have : c = '-' := by simpa using hcontra
      subst this
      simp at hcb
    rw [if_neg hcne, parseNat_renderNat]
    omega

/-- Every character of a rendered rational is a minus sign, a solidus or a
digit: code points 45-57. -/
lemma mem_renderQ_bounds {q : ℚ} {c : Char} (h : c ∈ renderQ q) :
    45 ≤ c.toNat ∧ c.toNat ≤ 57 := by
  rw [renderQ, List.mem_append] at h
  rcases h with h | h
  · rcases mem_renderInt_bounds h with h45 | hd
    · omega
    · omega
  · rw [List.mem_cons] at h
    rcases h with rfl | h
    · decide
    · have := mem_renderNat_bounds h
      omega

/-- Splitting a separator-free chunk leaves it whole. -/
lemma splitC_sepFree {sep : Char} {l : List Char} (h : sep ∉ l) :
    splitC sep l = [l] := by
  induction l with
  | nil => rfl
  | cons c cs ih =>
    have hc : ¬ c = sep := fun hcs => h (hcs ▸ List.mem_cons_self c cs)
    have hcs : sep ∉ cs := fun hm => h (List.mem_cons_of_mem c hm)
    rw [splitC, if_neg hc, ih hcs]

/-- Splitting past a leading separator-free chunk peels it off. -/
lemma splitC_append {sep : Char} {l rest : List Char} (h : sep ∉ l) :
    splitC sep (l ++ sep :: rest) = l :: splitC sep rest := by
  induction l with
  | nil =>
    rw [List.nil_append, splitC, if_pos rfl]
  | cons c cs ih =>
    have hc : ¬ c = sep := fun hcs => h (hcs ▸ List.mem_cons_self c cs)
    have hcs : sep ∉ cs := fun hm => h (List.mem_cons_of_mem c hm)
    rw [List.cons_append, splitC, if_neg hc, ih hcs]

/-- Unfolding a join at a nonempty tail. -/
lemma joinSep_cons (sep : Char) (l : List Char) (ls : List (List Char))
    (h : ls ≠ []) :
    joinSep sep (l :: ls) = l ++ sep :: joinSep sep ls := by
  cases ls with
  | nil => exact absurd rfl h
  | cons l' ls' => rfl

/-- Splitting undoes joining when every field is separator-free. -/
lemma splitC_joinSep {sep : Char} {L : List (List Char)}
    (h : ∀ l ∈ L, sep ∉ l) (hne : L ≠ []) :
    splitC sep (joinSep sep L) = L := by
  induction L with
  | nil => exact absurd rfl hne
  | cons l ls ih =>
    cases ls with
    | nil => exact splitC_sepFree (h l (List.mem_cons_self l []))
    | cons l' ls' =>
      rw [joinSep_cons sep l (l' :: ls') (by simp),
        splitC_append (h l (List.mem_cons_self _ _)),
        ih (fun x hx => h x (List.mem_cons_of_mem l hx)) (by simp)]

/-- Every character of a join is the separator or a field character. -/
lemma mem_joinSep {sep c : Char} {L : List (List Char)}
    (h : c ∈ joinSep sep L) : c = sep ∨ ∃ l ∈ L, c ∈ l := by
  induction L with
  | nil => simp [joinSep] at h
  | cons l ls ih =>
    cases ls with
    | nil =>
      rw [joinSep] at h
      exact Or.inr ⟨l, List.mem_cons_self l [], h⟩
    | cons l' ls' =>
      rw [joinSep_cons sep l (l' :: ls') (by simp), List.mem_append,
        List.mem_cons] at h
      rcases h with h | rfl | h
      · exact Or.inr ⟨l, List.mem_cons_self _ _, h⟩
      · exact Or.inl rfl
      · rcases ih h with hsep | ⟨x, hx, hcx⟩
        · exact Or.inl hsep
        · exact Or.inr ⟨x, List.mem_cons_of_mem l hx, hcx⟩

/-- Terminating every line with the separator is joining with a final empty
field appended. -/
lemma flatMap_terminated (c : Char) (L : List (List Char)) :
    L.flatMap (· ++ [c]) = joinSep c (L ++ [[]]) := by
  induction L with
  | nil => rfl
  | cons l ls ih =>
    rw [List.flatMap_cons, ih, List.cons_append,
      joinSep_cons c l (ls ++ [[]]) (by simp), List.append_assoc]
    rfl

/-- Reading back a rendered rational value cell recovers it. -/
lemma parseQ_renderQ (q : ℚ) : parseQ (renderQ q) = some q := by
  have hnum : '/' ∉ renderInt q.num := by
    intro hm
    rcases mem_renderInt_bounds hm with h | h
    · simp at h
    · rw [show ('/').toNat = 47 from rfl] at h
      omega
  have hden : '/' ∉ renderNat q.den := by
    intro hm
    have := mem_renderNat_bounds hm
    rw [show ('/').toNat = 47 from rfl] at this
    omega
  rw [parseQ, renderQ, splitC_append hnum, splitC_sepFree hden]
  show some ((parseInt (renderInt q.num) : ℚ) /
      (parseNat (renderNat q.den) : ℚ)) = some q
  rw [parseInt_renderInt, parseNat_renderNat, Rat.num_div_den]

/-- Structure eta for strings. -/
lemma stringMk_data (s : String) : String.mk s.data = s := by
  cases s
  rfl

/-- The comma is not among the characters of any cell of a row whose string
fields are delimiter-free. -/
lemma cells_comma_free {r : Row}
    (h : sepFree r.series_id.data ∧ sepFree r.date.data ∧
      sepFree r.series_name.data) :
    ∀ l ∈ cellsOfRow r, ',' ∉ l := by
  intro l hl
  rw [cellsOfRow] at hl
  simp only [List.mem_cons, List.not_mem_nil, or_false] at hl
  have hyear : ',' ∉ renderInt r.year := by
    intro hm
    rcases mem_renderInt_bounds hm with hm45 | hm48 <;> simp_all
  have hval : ',' ∉ renderQ r.value := by
    intro hm
    have := mem_renderQ_bounds hm
    simp at this
  rcases hl with rfl | rfl | rfl | rfl | rfl
  · exact h.1.1
  · exact h.2.1.1
  · exact hyear
  · exact hval
  · exact h.2.2.1

/-- The newline is not among the characters of an exported row line whose
string fields are delimiter-free. -/
lemma newline_not_mem_rowChars {r : Row}
    (h : sepFree r.series_id.data ∧ sepFree r.date.data ∧
      sepFree r.series_name.data) :
    '\n' ∉ rowChars r := by
  intro hm
  rcases mem_joinSep hm with hsep | ⟨l, hl, hcl⟩
  · simp at hsep
  · rw [cellsOfRow] at hl
    simp only [List.mem_cons, List.not_mem_nil, or_false] at hl
    have hyear : '\n' ∉ renderInt r.year := by
      intro hmm
      rcases mem_renderInt_bounds hmm with hm45 | hm48 <;> simp_all
    have hval : '\n' ∉ renderQ r.value := by
      intro hmm
      have := mem_renderQ_bounds hmm
      simp at this
    rcases hl with rfl | rfl | rfl | rfl | rfl
    · exact h.1.2 hcl
    · exact h.2.1.2 hcl
    · exact hyear hcl
    · exact hval hcl
    · exact h.2.2.2 hcl

/-- Reading back one exported row line recovers the row. -/
lemma parseRowChars_rowChars {r : Row}
    (h : sepFree r.series_id.data ∧ sepFree r.date.data ∧
      sepFree r.series_name.data) :
    parseRowChars (rowChars r) = some r := by
  have hsplit : splitC ',' (rowChars r) = cellsOfRow r := by
    rw [rowChars]
    exact splitC_joinSep (cells_comma_free h) (by rw [cellsOfRow]; simp)
  unfold parseRowChars
  rw [hsplit, cellsOfRow]
  show (parseQ (renderQ r.value)).map _ = some r
  rw [parseQ_renderQ, Option.map_some', parseInt_renderInt, stringMk_data,
    stringMk_data, stringMk_data]

/-- Reading back every exported row line recovers the view. -/
lemma parseRows_map {v : List Row}
    (h : ∀ r ∈ v, sepFree r.series_id.data ∧ sepFree r.date.data ∧
      sepFree r.series_name.data) :
    parseRows (v.map rowChars) = some v := by
  induction v with
  | nil => rfl
  | cons r v ih =>
    rw [List.map_cons, parseRows,
      parseRowChars_rowChars (h r (List.mem_cons_self r v)),
      ih fun x hx => h x (List.mem_cons_of_mem r hx)]

/-- C9. Round trip of the delimited export: re-parsing the text produced by
`to_csv` for a filtered view whose string fields are free of the two
delimiter characters yields the view again, row for row — in particular the
export carries exactly the view's rows and its five columns, the
synthesized `series_name` column included. (Numeric cells are rendered
exactly; the claim is modulo the formatting of numeric values.) -/
theorem csvExport_roundTrip (v : List Row)
    (h : ∀ r ∈ v, sepFree r.series_id.data ∧ sepFree r.date.data ∧
      sepFree r.series_name.data) :
    parseCsv (toCsv v) = some v := by
  have hlines : ∀ l ∈ (headerChars :: v.map rowChars) ++ [[]], '\n' ∉ l := by
    intro l hl
    rcases List.mem_cons.mp hl with rfl | hl2
    · decide
    · rcases List.mem_append.mp hl2 with hmem | hnil
      · obtain ⟨r, hr, rfl⟩ := List.mem_map.mp hmem
        exact newline_not_mem_rowChars (h r hr)
      · rw [List.mem_singleton] at hnil
        subst hnil
        simp
  have hsplit : splitC '\n' (toCsv v) =
      (headerChars :: v.map rowChars) ++ [[]] := by
    rw [toCsv, flatMap_terminated]
    exact splitC_joinSep hlines (by simp)
  unfold parseCsv
  rw [hsplit, dropFinalEmpty, List.getLast?_concat, if_pos rfl,
    List.dropLast_concat]
  show (if headerChars = headerChars then parseRows (v.map rowChars)
    else none) = some v
  rw [if_pos rfl, parseRows_map h]

/-- Witness for C9: a one-row filtered view (the 2020 Unemployment Rate
observation) survives the export round trip. -/
theorem csvExport_roundTrip_witness :
    parseCsv (toCsv
        [{ series_id := "LNS14000000", date := "2020-04-01", year := 2020,
           value := 806 / 100, series_name := "Unemployment Rate" }]) =
      some
        [{ series_id := "LNS14000000", date := "2020-04-01", year := 2020,
           value := 806 / 100, series_name := "Unemployment Rate" }] :=
  csvExport_roundTrip _ (by decide)

end BLS
